import Mathlib

/-!
A verification development for the GrowthMap sequential learning-module
progression. The SQL design documents define a catalog table of modules
ordered by order_index, a per-user progress table keyed by the unique pair
(user_id, module_id), three status projections and a transactional
complete_module function. Those functions are embedded below as pure state
transformers over a partial map of progress rows, and the documented
properties of the progression state machine are settled against them.
-/

namespace GrowthMap

/-- Stored module status: the CHECK constraint on user_module_progress.status
admits exactly done, active and locked. -/
inductive Status where
  | done
  | active
  | locked
  deriving DecidableEq

abbrev UserId := Nat

abbrev ModuleId := Nat

abbrev Time := Nat

/-- A row of the modules catalog table. Display metadata (title, description)
and the audit timestamps are omitted: no status computation or transition
reads them. -/
structure Module where
  id : ModuleId
  order_index : Int
  deriving DecidableEq

abbrev Catalog := List Module

/-- A row of user_module_progress for one (user_id, module_id) key. The serial
surrogate id is omitted; the UNIQUE(user_id, module_id) constraint is modelled
by keying rows on that pair directly. -/
structure ProgressRow where
  status : Status
  completed_at : Option Time
  started_at : Option Time
  created_at : Time
  updated_at : Time
  deriving DecidableEq

/-- The user_module_progress table as a partial map from its unique key. -/
abbrev Progress := UserId → ModuleId → Option ProgressRow

/-- A table with no rows. -/
def emptyProgress : Progress := fun _ _ => none

/-- Point update of the row stored under one (user, module) key. -/
def setRow (prog : Progress) (u : UserId) (mid : ModuleId) (r : ProgressRow) : Progress :=
  fun v n => if v = u ∧ n = mid then some r else prog v n

/-- SELECT order_index FROM modules WHERE id = p_module_id: the scalar is NULL
when no catalog row carries the id (ids are the primary key). -/
def orderOf (cat : Catalog) (mid : ModuleId) : Option Int :=
  (cat.find? (fun m => decide (m.id = mid))).map Module.order_index

/-- SQL three-valued comparison x < o with a possibly NULL right operand: a
comparison against NULL is not true. -/
def ltNullable (x : Int) (o : Option Int) : Bool :=
  match o with
  | some v => decide (x < v)
  | none => false

/-- Whether user_module_progress holds a row for (u, mid) with status done. -/
def hasDoneRow (prog : Progress) (u : UserId) (mid : ModuleId) : Bool :=
  match prog u mid with
  | some r => decide (r.status = Status.done)
  | none => false

/-- Correlated count over the join of the progress rows of user u with the
catalog: SELECT COUNT(*) FROM user_module_progress ump JOIN modules m ON
m.id = ump.module_id WHERE ump.user_id = u AND ump.status = done AND
m.order_index < ord (src/database-design.md lines 115-121 and 197-203). -/
def prevDoneCount (cat : Catalog) (prog : Progress) (u : UserId) (ord : Option Int) : Nat :=
  (cat.filter (fun m => hasDoneRow prog u m.id && ltNullable m.order_index ord)).length

/-- SELECT COUNT(*) FROM modules WHERE order_index < ord
(src/database-design.md lines 123-126 and 204-207). -/
def prevTotalCount (cat : Catalog) (ord : Option Int) : Nat :=
  (cat.filter (fun m => ltNullable m.order_index ord)).length

/-- get_module_status from src/database-design.md lines 85-136: a stored done
row wins, then the literal first-module test order_index = 1, then the
all-predecessors-done count comparison. The plpgsql local variables are
inlined; a comparison with a NULL variable is not true. -/
def get_module_status (cat : Catalog) (prog : Progress) (u : UserId) (mid : ModuleId) : Status :=
  if (prog u mid).map ProgressRow.status = some Status.done then Status.done
  else if orderOf cat mid = some 1 then Status.active
  else if prevDoneCount cat prog u (orderOf cat mid) = prevTotalCount cat (orderOf cat mid)
    then Status.active
  else Status.locked

/-- The CASE expression computing the status column of get_user_modules in
src/database-design.md lines 173-220, for a catalog row m left-joined to the
progress row of user u. -/
def get_user_modules_case_status (cat : Catalog) (prog : Progress) (u : UserId)
    (m : Module) : Status :=
  if (prog u m.id).map ProgressRow.status = some Status.done then Status.done
  else if m.order_index = 1 then Status.active
  else if prevDoneCount cat prog u (some m.order_index)
      = prevTotalCount cat (some m.order_index)
    then Status.active
  else Status.locked

/-- The status column COALESCE(ump.status, locked) of get_user_modules in
src/unnamed/part_000 lines 89-113: the stored status, defaulting to locked. -/
def get_user_modules_coalesce_status (prog : Progress) (u : UserId) (mid : ModuleId) : Status :=
  match prog u mid with
  | some r => r.status
  | none => Status.locked

/-- One row of the RETURNS TABLE shape shared by both get_user_modules
functions, display metadata omitted. -/
structure ModuleRowOut where
  id : ModuleId
  order_index : Int
  status : Status
  completed_at : Option Time
  started_at : Option Time
  deriving DecidableEq

/-- Insertion step of the ORDER BY m.order_index sort. -/
def insertByOrder (m : Module) : List Module → List Module
  | [] => [m]
  | x :: xs => if m.order_index ≤ x.order_index then m :: x :: xs else x :: insertByOrder m xs

/-- ORDER BY m.order_index over the catalog. -/
def sortByOrder (cat : Catalog) : List Module :=
  cat.foldr insertByOrder []

/-- get_user_modules from src/database-design.md lines 173-220: module rows in
catalog order, statuses computed by the correlated CASE, timestamps passed
through from the stored row when present. -/
def get_user_modules (cat : Catalog) (prog : Progress) (u : UserId) : List ModuleRowOut :=
  (sortByOrder cat).map fun m =>
    { id := m.id
      order_index := m.order_index
      status := get_user_modules_case_status cat prog u m
      completed_at := (prog u m.id).bind ProgressRow.completed_at
      started_at := (prog u m.id).bind ProgressRow.started_at }

/-- get_user_modules from src/unnamed/part_000 lines 89-113: module rows in
catalog order, the status column read off the stored row with COALESCE to
locked, timestamps passed through. -/
def get_user_modules_simple (cat : Catalog) (prog : Progress) (u : UserId) : List ModuleRowOut :=
  (sortByOrder cat).map fun m =>
    { id := m.id
      order_index := m.order_index
      status := get_user_modules_coalesce_status prog u m.id
      completed_at := (prog u m.id).bind ProgressRow.completed_at
      started_at := (prog u m.id).bind ProgressRow.started_at }

/-- Step a of complete_module (src/unnamed/part_000 lines 155-161): UPDATE the
(u, mid) row to status done with completed_at and updated_at set to NOW;
started_at and created_at keep their values. Without a row the UPDATE matches
nothing. -/
def markDone (now : Time) (u : UserId) (mid : ModuleId) (prog : Progress) : Progress :=
  match prog u mid with
  | none => prog
  | some r =>
      setRow prog u mid
        { r with status := Status.done, completed_at := some now, updated_at := now }

/-- Successor search of complete_module (src/unnamed/part_000 lines 163-171):
SELECT id FROM modules WHERE order_index = (SELECT order_index + 1 FROM modules
WHERE id = p_module_id) LIMIT 1. For an id absent from the catalog the inner
scalar is NULL, and the outer equality then matches no row. -/
def successor_lookup (cat : Catalog) (mid : ModuleId) : Option ModuleId :=
  match orderOf cat mid with
  | none => none
  | some k => (cat.find? (fun m => decide (m.order_index = k + 1))).map Module.id

/-- Step c of complete_module (src/unnamed/part_000 lines 174-183): INSERT the
successor row as active with started_at NOW, ON CONFLICT DO UPDATE SET status
active, started_at COALESCE(existing, NOW), updated_at NOW, the update guarded
by WHERE status is not done. -/
def provisionNext (now : Time) (u : UserId) (nid : ModuleId) (prog : Progress) : Progress :=
  match prog u nid with
  | none =>
      setRow prog u nid
        { status := Status.active
          completed_at := none
          started_at := some now
          created_at := now
          updated_at := now }
  | some r =>
      if r.status = Status.done then prog
      else
        setRow prog u nid
          { r with
            status := Status.active
            started_at := some (r.started_at.getD now)
            updated_at := now }

/-- complete_module from src/unnamed/part_000 lines 139-185. The initial guard
returns silently unless the stored status for (u, mid) is exactly active; the
row is then marked done and the successor, when one exists, is provisioned.
The plpgsql function returns VOID and raises nothing, so it embeds as a total
state transformer. -/
def complete_module (cat : Catalog) (now : Time) (u : UserId) (mid : ModuleId)
    (prog : Progress) : Progress :=
  if (prog u mid).map ProgressRow.status = some Status.active then
    match successor_lookup cat mid with
    | none => markDone now u mid prog
    | some nid => provisionNext now u nid (markDone now u mid prog)
  else prog

/-- Error kind of the catalog interface in the design: a referenced module
does not resolve. -/
inductive CatalogError where
  | notFound
  deriving DecidableEq

/-- The successor computation with its error channel made explicit. The SQL
implementation in src/unnamed/part_000 raises nothing on an unknown module id,
so every run produces an ok result. -/
def successor_lookupE (cat : Catalog) (mid : ModuleId) : Except CatalogError (Option ModuleId) :=
  Except.ok (successor_lookup cat mid)

/-- Modelled from the spec: the transaction runtime of the store, which is not
part of the repository sources. complete_module is declared LANGUAGE plpgsql
and documented as one transaction whose changes all roll back on an error. A
run either commits the whole function body, or a failure injected between
step a and step c aborts the transaction and every change is rolled back. -/
inductive TxnRun where
  | commit
  | failBetween
  deriving DecidableEq

/-- Modelled from the spec: the observable store after a complete_module call
under the transactional contract. A committed run applies the whole function;
an aborted run leaves the store exactly as it was. -/
def complete_module_txn (run : TxnRun) (cat : Catalog) (now : Time) (u : UserId)
    (mid : ModuleId) (prog : Progress) : Progress :=
  match run with
  | TxnRun.commit => complete_module cat now u mid prog
  | TxnRun.failBetween => prog

/-- A finite sequence of complete_module calls, each with its own clock value,
user and module argument, folded over the store. -/
def runCalls (cat : Catalog) (calls : List (Time × UserId × ModuleId)) (prog : Progress) :
    Progress :=
  calls.foldl (fun p c => complete_module cat c.1 c.2.1 c.2.2 p) prog

/-- The done modules of user u form a gapless initial segment of catalog
order: effective done status is downward closed under order_index. -/
def DoneDownClosed (cat : Catalog) (prog : Progress) (u : UserId) : Prop :=
  ∀ m1 ∈ cat, ∀ m2 ∈ cat, m1.order_index < m2.order_index →
    get_module_status cat prog u m2.id = Status.done →
    get_module_status cat prog u m1.id = Status.done

/-- A two-module catalog with ids 1, 2 at order positions 1, 2, used by the
concrete instances below. -/
def cat01 : Catalog := [⟨1, 1⟩, ⟨2, 2⟩]

/-- A progress row currently active, begun at clock 1. -/
def rowActive : ProgressRow :=
  { status := Status.active
    completed_at := none
    started_at := some 1
    created_at := 0
    updated_at := 0 }

/-- A progress row already done, completed at clock 2. -/
def rowDone : ProgressRow :=
  { status := Status.done
    completed_at := some 2
    started_at := some 0
    created_at := 0
    updated_at := 0 }

/-- A store where user 0 has module 1 active and module 2 already done. -/
def progMixed : Progress :=
  fun v n => if v = 0 ∧ n = 1 then some rowActive
    else if v = 0 ∧ n = 2 then some rowDone else none

/-- A store where user 0 has only module 2 active. -/
def progLastActive : Progress :=
  fun v n => if v = 0 ∧ n = 2 then some rowActive else none

/-! ## Helper lemmas -/

theorem find_id_eq_of_mem_nodup (cat : Catalog) (m : Module) :
    m ∈ cat → (cat.map Module.id).Nodup →
    cat.find? (fun x => decide (x.id = m.id)) = some m := by
  induction cat with
  | nil => intro hm _; cases hm
  | cons a as ih =>
    intro hm hid
    rcases List.mem_cons.mp hm with h | h
    · subst h
      exact List.find?_cons_of_pos _ (by simp)
    · have hane : ¬ a.id = m.id := by
        intro he
        exact (List.nodup_cons.mp hid).1 (he ▸ List.mem_map_of_mem Module.id h)
      rw [List.find?_cons_of_neg _ (by simpa using hane)]
      exact ih h (List.nodup_cons.mp hid).2

theorem orderOf_eq_of_mem (cat : Catalog) (m : Module) (hm : m ∈ cat)
    (hid : (cat.map Module.id).Nodup) :
    orderOf cat m.id = some m.order_index := by
  unfold orderOf
  rw [find_id_eq_of_mem_nodup cat m hm hid]
  rfl

theorem orderOf_eq_none (cat : Catalog) (mid : ModuleId)
    (h : ∀ m2 ∈ cat, m2.id ≠ mid) : orderOf cat mid = none := by
  unfold orderOf
  rw [List.find?_eq_none.mpr (by intro x hx; simp [h x hx])]
  rfl

theorem prevDoneCount_none (cat : Catalog) (prog : Progress) (u : UserId) :
    prevDoneCount cat prog u none = 0 := by
  unfold prevDoneCount
  simp [ltNullable]

theorem prevTotalCount_none (cat : Catalog) : prevTotalCount cat none = 0 := by
  unfold prevTotalCount
  simp [ltNullable]

theorem prevDoneCount_of_norec (cat : Catalog) (prog : Progress) (u : UserId)
    (ord : Option Int) (h : ∀ n, prog u n = none) :
    prevDoneCount cat prog u ord = 0 := by
  unfold prevDoneCount
  simp [hasDoneRow, h]

theorem get_module_status_eq_case (cat : Catalog) (prog : Progress) (u : UserId)
    (m : Module) (hm : m ∈ cat) (hid : (cat.map Module.id).Nodup) :
    get_module_status cat prog u m.id = get_user_modules_case_status cat prog u m := by
  unfold get_module_status get_user_modules_case_status
  rw [orderOf_eq_of_mem cat m hm hid]
  simp only [Option.some.injEq]

theorem get_module_status_ne_done_of_norec (cat : Catalog) (prog : Progress)
    (u : UserId) (mid : ModuleId) (h : prog u mid = none) :
    get_module_status cat prog u mid ≠ Status.done := by
  unfold get_module_status
  rw [h]
  rw [if_neg (by simp)]
  split
  · simp
  · split <;> simp

theorem case_status_of_norec (cat : Catalog) (prog : Progress) (u : UserId)
    (m : Module) (hm : m ∈ cat) (hrec : ∀ n, prog u n = none)
    (hpos : ∀ m2 ∈ cat, (1 : Int) ≤ m2.order_index)
    (f : Module) (hf : f ∈ cat) (hf1 : f.order_index = 1) :
    get_user_modules_case_status cat prog u m
      = if m.order_index = 1 then Status.active else Status.locked := by
  unfold get_user_modules_case_status
  rw [hrec m.id]
  by_cases h1 : m.order_index = 1
  · simp [h1]
  · have hm1 : (1 : Int) < m.order_index := lt_of_le_of_ne (hpos m hm) (Ne.symm h1)
    have hdc : prevDoneCount cat prog u (some m.order_index) = 0 :=
      prevDoneCount_of_norec cat prog u (some m.order_index) hrec
    have htc : prevTotalCount cat (some m.order_index) ≠ 0 := by
      unfold prevTotalCount
      intro hlen
      rw [List.length_eq_zero] at hlen
      have hfmem : f ∈ cat.filter (fun m2 => ltNullable m2.order_index (some m.order_index)) := by
        refine List.mem_filter.mpr ⟨hf, ?_⟩
        simp only [ltNullable, hf1, decide_eq_true_eq]
        exact hm1
      rw [hlen] at hfmem
      cases hfmem
    rw [if_neg (by simp), if_neg h1, if_neg (by rw [hdc]; exact fun he => htc he.symm)]
    rw [if_neg h1]

theorem coalesce_status_of_norec (prog : Progress) (u : UserId) (mid : ModuleId)
    (hrec : prog u mid = none) :
    get_user_modules_coalesce_status prog u mid = Status.locked := by
  unfold get_user_modules_coalesce_status
  rw [hrec]

theorem mem_insertByOrder (m x : Module) (l : List Module) :
    x ∈ insertByOrder m l ↔ x ∈ m :: l := by
  induction l with
  | nil => simp [insertByOrder]
  | cons a as ih =>
    unfold insertByOrder
    by_cases h : m.order_index ≤ a.order_index
    · rw [if_pos h]
    · rw [if_neg h]
      simp only [List.mem_cons, ih]
      tauto

theorem mem_sortByOrder (cat : Catalog) (x : Module) :
    x ∈ sortByOrder cat ↔ x ∈ cat := by
  induction cat with
  | nil => simp [sortByOrder]
  | cons a as ih =>
    unfold sortByOrder at *
    rw [List.foldr_cons, mem_insertByOrder]
    simp [ih]

theorem setRow_same (prog : Progress) (u : UserId) (mid : ModuleId) (r : ProgressRow) :
    setRow prog u mid r u mid = some r := by
  unfold setRow
  simp

theorem setRow_ne (prog : Progress) (u : UserId) (mid : ModuleId) (r : ProgressRow)
    (v : UserId) (n : ModuleId) (h : ¬ (v = u ∧ n = mid)) :
    setRow prog u mid r v n = prog v n := by
  unfold setRow
  rw [if_neg h]

theorem markDone_at (now : Time) (u : UserId) (mid : ModuleId) (prog : Progress)
    (r : ProgressRow) (h : prog u mid = some r) :
    (markDone now u mid prog) u mid
      = some { r with status := Status.done, completed_at := some now, updated_at := now } := by
  unfold markDone
  rw [h]
  exact setRow_same prog u mid _

theorem markDone_other (now : Time) (u : UserId) (mid : ModuleId) (prog : Progress)
    (v : UserId) (n : ModuleId) (h : ¬ (v = u ∧ n = mid)) :
    (markDone now u mid prog) v n = prog v n := by
  unfold markDone
  cases hpm : prog u mid with
  | none => rfl
  | some r => exact setRow_ne prog u mid _ v n h

theorem provisionNext_of_done (now : Time) (u : UserId) (nid : ModuleId) (prog : Progress)
    (rn : ProgressRow) (h : prog u nid = some rn) (hd : rn.status = Status.done) :
    provisionNext now u nid prog = prog := by
  simp only [provisionNext, h]
  rw [if_pos hd]

theorem complete_module_noop (cat : Catalog) (now : Time) (u : UserId) (mid : ModuleId)
    (prog : Progress) (h : ¬ (prog u mid).map ProgressRow.status = some Status.active) :
    complete_module cat now u mid prog = prog := by
  unfold complete_module
  rw [if_neg h]

theorem complete_module_marks_done (cat : Catalog) (now : Time) (u : UserId)
    (mid : ModuleId) (prog : Progress) (r : ProgressRow)
    (hr : prog u mid = some r) (hact : r.status = Status.active) :
    ((complete_module cat now u mid prog) u mid).map ProgressRow.status
      = some Status.done := by
  have hguard : (prog u mid).map ProgressRow.status = some Status.active := by
    rw [hr, Option.map_some', hact]
  have hmd := markDone_at now u mid prog r hr
  unfold complete_module
  rw [if_pos hguard]
  cases hsl : successor_lookup cat mid with
  | none =>
    simp only []
    rw [hmd]
    rfl
  | some nid =>
    simp only []
    by_cases hne : nid = mid
    · subst hne
      rw [provisionNext_of_done now u nid _ _ hmd rfl, hmd]
      rfl
    · unfold provisionNext
      cases hpn : (markDone now u mid prog) u nid with
      | none =>
        simp only []
        rw [setRow_ne _ u nid _ u mid (fun hc => hne hc.2.symm), hmd]
        rfl
      | some rn =>
        simp only []
        by_cases hd : rn.status = Status.done
        · rw [if_pos hd, hmd]
          rfl
        · rw [if_neg hd, setRow_ne _ u nid _ u mid (fun hc => hne hc.2.symm), hmd]
          rfl

theorem complete_module_successor_provisioned (cat : Catalog) (now : Time) (u : UserId)
    (mid : ModuleId) (prog : Progress) (r : ProgressRow)
    (hr : prog u mid = some r) (hact : r.status = Status.active)
    (nid : ModuleId) (hsl : successor_lookup cat mid = some nid) :
    ((complete_module cat now u mid prog) u nid).map ProgressRow.status = some Status.active
    ∨ ((complete_module cat now u mid prog) u nid).map ProgressRow.status
        = some Status.done := by
  have hguard : (prog u mid).map ProgressRow.status = some Status.active := by
    rw [hr, Option.map_some', hact]
  unfold complete_module
  rw [if_pos hguard, hsl]
  simp only []
  unfold provisionNext
  cases hpn : (markDone now u mid prog) u nid with
  | none =>
    simp only []
    left
    rw [setRow_same]
    rfl
  | some rn =>
    simp only []
    by_cases hd : rn.status = Status.done
    · right
      rw [if_pos hd, hpn, Option.map_some', hd]
    · left
      rw [if_neg hd, setRow_same]
      rfl

theorem complete_module_done_after (cat : Catalog) (now : Time) (u : UserId)
    (mid : ModuleId) (prog : Progress)
    (hguard : (prog u mid).map ProgressRow.status = some Status.active) :
    ((complete_module cat now u mid prog) u mid).map ProgressRow.status
      = some Status.done := by
  obtain ⟨r, hr, hact⟩ := Option.map_eq_some'.mp hguard
  exact complete_module_marks_done cat now u mid prog r hr hact

theorem complete_module_empty (cat : Catalog) (now : Time) (u : UserId) (mid : ModuleId) :
    complete_module cat now u mid emptyProgress = emptyProgress := by
  apply complete_module_noop
  simp [emptyProgress]

theorem runCalls_empty (cat : Catalog) (calls : List (Time × UserId × ModuleId)) :
    runCalls cat calls emptyProgress = emptyProgress := by
  induction calls with
  | nil => rfl
  | cons c cs ih =>
    unfold runCalls at *
    rw [List.foldl_cons, complete_module_empty]
    exact ih

/-! ## Claim theorems -/

/-- C1 counterexample: with no progress rows at all, the get_user_modules of
src/unnamed/part_000 gives the order_index 1 module status locked, not active:
its status column is only COALESCE of the stored status. -/
theorem first_module_lookup_locked_cex :
    get_user_modules_simple cat01 emptyProgress 0
      = [⟨1, 1, Status.locked, none, none⟩, ⟨2, 2, Status.locked, none, none⟩]
    ∧ Status.locked ≠ Status.active := by
  exact ⟨by decide, by decide⟩

/-- C1 (amended): for a user with no stored ProgressRecord at all, the
computed projections assign active exactly to the order_index 1 module: every
row of the database-design.md get_user_modules has status active when its
order_index is 1 and locked otherwise, and get_module_status agrees, given
that catalog ids are unique, every order_index is at least 1 and some module
has order_index 1. The part_000 get_user_modules instead yields status locked
for every row, the first module included. -/
theorem first_module_default_amended (cat : Catalog) (prog : Progress) (u : UserId)
    (hrec : ∀ n, prog u n = none)
    (hid : (cat.map Module.id).Nodup)
    (hpos : ∀ m2 ∈ cat, (1 : Int) ≤ m2.order_index)
    (f : Module) (hf : f ∈ cat) (hf1 : f.order_index = 1) :
    (∀ m ∈ cat, get_module_status cat prog u m.id
        = if m.order_index = 1 then Status.active else Status.locked)
    ∧ (∀ row ∈ get_user_modules cat prog u,
        row.status = if row.order_index = 1 then Status.active else Status.locked)
    ∧ (∀ row ∈ get_user_modules_simple cat prog u, row.status = Status.locked) := by
  refine ⟨?_, ?_, ?_⟩
  · intro m hm
    rw [get_module_status_eq_case cat prog u m hm hid]
    exact case_status_of_norec cat prog u m hm hrec hpos f hf hf1
  · intro row hrow
    simp only [get_user_modules, List.mem_map] at hrow
    obtain ⟨m, hmmem, hrw⟩ := hrow
    have hm : m ∈ cat := (mem_sortByOrder cat m).mp hmmem
    rw [← hrw]
    exact case_status_of_norec cat prog u m hm hrec hpos f hf hf1
  · intro row hrow
    simp only [get_user_modules_simple, List.mem_map] at hrow
    obtain ⟨m, hmmem, hrw⟩ := hrow
    rw [← hrw]
    exact coalesce_status_of_norec prog u m.id (hrec m.id)

/-- C1 witness: on the concrete two-module catalog with a recordless user, the
computed status of module 1 is the active branch of the amended rule. -/
theorem first_module_default_amended_witness :
    get_module_status cat01 emptyProgress 0 1
      = if (1 : Int) = 1 then Status.active else Status.locked := by
  have h := first_module_default_amended cat01 emptyProgress 0 (fun _ => rfl)
    (by decide) (by decide) ⟨1, 1⟩ (by decide) rfl
  exact h.1 ⟨1, 1⟩ (by decide)

/-- C2 counterexample: for a recordless user the per-row get_module_status and
the correlated CASE both give module 1 active while the stored-status lookup
gives locked, so the three derivations do not all agree. -/
theorem three_projections_cex :
    get_module_status cat01 emptyProgress 0 1 = Status.active
    ∧ get_user_modules_case_status cat01 emptyProgress 0 ⟨1, 1⟩ = Status.active
    ∧ get_user_modules_coalesce_status emptyProgress 0 1 = Status.locked
    ∧ Status.active ≠ Status.locked := by
  exact ⟨by decide, by decide, by decide, by decide⟩

/-- C2 (amended): the two computed derivations, get_module_status and the
correlated CASE of the database-design.md get_user_modules, assign the same
effective status to every catalog module for every store and user, given
unique catalog ids; the stored-status lookup of part_000 is the derivation
that differs, as the counterexample shows. -/
theorem computed_projections_agree (cat : Catalog) (prog : Progress) (u : UserId)
    (m : Module) (hm : m ∈ cat) (hid : (cat.map Module.id).Nodup) :
    get_module_status cat prog u m.id = get_user_modules_case_status cat prog u m :=
  get_module_status_eq_case cat prog u m hm hid

/-- C2 witness at a concrete store holding one active and one done row. -/
theorem computed_projections_agree_witness :
    get_module_status cat01 progMixed 0 2
      = get_user_modules_case_status cat01 progMixed 0 ⟨2, 2⟩ :=
  computed_projections_agree cat01 progMixed 0 ⟨2, 2⟩ (by decide) (by decide)

/-- C3: starting from a store with no progress rows, any finite sequence of
complete_module calls with arbitrary arguments leaves every user with a done
set that is downward closed in catalog order, hence a contiguous prefix of the
order_index order. The initial guard of complete_module makes every call on
the empty store a no-op, so the store stays empty and no module is ever
effectively done. -/
theorem done_down_closed_from_empty (cat : Catalog)
    (calls : List (Time × UserId × ModuleId)) (u : UserId) :
    DoneDownClosed cat (runCalls cat calls emptyProgress) u := by
  rw [runCalls_empty]
  unfold DoneDownClosed
  intro m1 hm1 m2 hm2 hlt hdone
  exact absurd hdone (get_module_status_ne_done_of_norec cat emptyProgress u m2.id rfl)

/-- C4: under the spec-modelled transactional runtime, a failure injected
between step a and step c rolls the store back to the pre-transition state, so
mid is still active and the successor untouched; and a committed run both
marks mid done and leaves the successor, when one exists, provisioned active
or already done. No state with mid done but its successor unprovisioned is
observable. -/
theorem complete_module_atomicity (cat : Catalog) (now : Time) (u : UserId)
    (mid : ModuleId) (prog : Progress)
    (hguard : (prog u mid).map ProgressRow.status = some Status.active) :
    complete_module_txn TxnRun.failBetween cat now u mid prog = prog
    ∧ ((complete_module_txn TxnRun.commit cat now u mid prog) u mid).map ProgressRow.status
        = some Status.done
    ∧ ∀ nid, successor_lookup cat mid = some nid →
        ((complete_module_txn TxnRun.commit cat now u mid prog) u nid).map ProgressRow.status
            = some Status.active
        ∨ ((complete_module_txn TxnRun.commit cat now u mid prog) u nid).map ProgressRow.status
            = some Status.done := by
  obtain ⟨r, hr, hact⟩ := Option.map_eq_some'.mp hguard
  refine ⟨rfl, complete_module_marks_done cat now u mid prog r hr hact, ?_⟩
  intro nid hsl
  exact complete_module_successor_provisioned cat now u mid prog r hr hact nid hsl

/-- C4 witness at a concrete store: module 1 active for user 0, its successor
module 2; the aborted run returns the pre-state and the committed run leaves
module 1 done with module 2 provisioned. -/
theorem complete_module_atomicity_witness :
    complete_module_txn TxnRun.failBetween cat01 7 0 1 progMixed = progMixed
    ∧ ((complete_module_txn TxnRun.commit cat01 7 0 1 progMixed) 0 1).map ProgressRow.status
        = some Status.done
    ∧ (((complete_module_txn TxnRun.commit cat01 7 0 1 progMixed) 0 2).map ProgressRow.status
          = some Status.active
       ∨ ((complete_module_txn TxnRun.commit cat01 7 0 1 progMixed) 0 2).map ProgressRow.status
          = some Status.done) := by
  have h := complete_module_atomicity cat01 7 0 1 progMixed rfl
  exact ⟨h.1, h.2.1, h.2.2 2 rfl⟩

/-- C5: complete_module returns without error and changes no progress row
whenever the row for (u, mid) is absent or its stored status is locked or
done. The embedding is a total function with no error channel, mirroring the
plpgsql function that raises nothing and simply returns. -/
theorem complete_module_silent_noop (cat : Catalog) (now : Time) (u : UserId)
    (mid : ModuleId) (prog : Progress)
    (h : prog u mid = none
       ∨ (prog u mid).map ProgressRow.status = some Status.locked
       ∨ (prog u mid).map ProgressRow.status = some Status.done) :
    complete_module cat now u mid prog = prog := by
  apply complete_module_noop
  rcases h with h | h | h
  · rw [h]
    simp
  · rw [h]
    simp
  · rw [h]
    simp

/-- C5 witness: completing the already done module 2 changes nothing. -/
theorem complete_module_silent_noop_witness :
    complete_module cat01 7 0 2 progMixed = progMixed :=
  complete_module_silent_noop cat01 7 0 2 progMixed (Or.inr (Or.inr rfl))

/-- C6: complete_module is idempotent: repeating a call with the same user and
module, at any later clock value, leaves the store exactly as the first call
did, for every store whatsoever. -/
theorem complete_module_idem (cat : Catalog) (t1 t2 : Time) (u : UserId)
    (mid : ModuleId) (prog : Progress) :
    complete_module cat t2 u mid (complete_module cat t1 u mid prog)
      = complete_module cat t1 u mid prog := by
  by_cases hg : (prog u mid).map ProgressRow.status = some Status.active
  · have hd := complete_module_done_after cat t1 u mid prog hg
    apply complete_module_noop
    rw [hd]
    simp
  · rw [complete_module_noop cat t1 u mid prog hg]
    exact complete_module_noop cat t2 u mid prog hg

/-- C7: when the successor of mid already holds a done row for the user,
complete_module marks mid done and returns the successor row entirely
unchanged: status, started_at, completed_at and the audit timestamps all keep
their prior values, because the upsert is guarded by WHERE status is not
done. -/
theorem complete_module_no_regression (cat : Catalog) (now : Time) (u : UserId)
    (mid nid : ModuleId) (prog : Progress) (r rn : ProgressRow)
    (hr : prog u mid = some r) (hact : r.status = Status.active)
    (hsl : successor_lookup cat mid = some nid)
    (hn : prog u nid = some rn) (hdone : rn.status = Status.done) :
    (complete_module cat now u mid prog) u nid = some rn
    ∧ ((complete_module cat now u mid prog) u mid).map ProgressRow.status
        = some Status.done := by
  have hguard : (prog u mid).map ProgressRow.status = some Status.active := by
    rw [hr, Option.map_some', hact]
  have hne : ¬ (u = u ∧ nid = mid) := by
    rintro ⟨-, h2⟩
    subst h2
    rw [hr] at hn
    have hrrn : r = rn := Option.some.inj hn
    rw [← hrrn, hact] at hdone
    cases hdone
  have hmn : (markDone now u mid prog) u nid = some rn := by
    rw [markDone_other now u mid prog u nid hne]
    exact hn
  constructor
  · unfold complete_module
    rw [if_pos hguard, hsl]
    simp only []
    rw [provisionNext_of_done now u nid _ rn hmn hdone]
    exact hmn
  · exact complete_module_marks_done cat now u mid prog r hr hact

/-- C7 witness: completing module 1 while module 2 is already done returns the
module 2 row unchanged and marks module 1 done. -/
theorem complete_module_no_regression_witness :
    (complete_module cat01 7 0 1 progMixed) 0 2 = some rowDone
    ∧ ((complete_module cat01 7 0 1 progMixed) 0 1).map ProgressRow.status
        = some Status.done := by
  have h := complete_module_no_regression cat01 7 0 1 2 progMixed rowActive rowDone
    rfl rfl rfl rfl rfl
  exact ⟨h.1, h.2⟩

/-- C8: completing the module with the greatest order_index while it is active
sets exactly that row to done with completed_at filled in, and neither creates
nor modifies any other progress row: the successor search matches no catalog
row, so no successor is provisioned and no error arises. -/
theorem complete_module_terminal (cat : Catalog) (now : Time) (u : UserId)
    (mid : ModuleId) (prog : Progress) (r : ProgressRow) (k : Int)
    (hr : prog u mid = some r) (hact : r.status = Status.active)
    (hord : orderOf cat mid = some k)
    (hmax : ∀ m2 ∈ cat, m2.order_index ≤ k) :
    (complete_module cat now u mid prog) u mid
        = some { r with status := Status.done, completed_at := some now, updated_at := now }
    ∧ ∀ v n, ¬ (v = u ∧ n = mid) → (complete_module cat now u mid prog) v n = prog v n := by
  have hguard : (prog u mid).map ProgressRow.status = some Status.active := by
    rw [hr, Option.map_some', hact]
  have hfind : cat.find? (fun m => decide (m.order_index = k + 1)) = none :=
    List.find?_eq_none.mpr (by
      intro x hx
      simp only [decide_eq_true_eq]
      have := hmax x hx
      omega)
  have hsl : successor_lookup cat mid = none := by
    simp only [successor_lookup, hord, hfind, Option.map_none']
  unfold complete_module
  rw [if_pos hguard, hsl]
  simp only []
  exact ⟨markDone_at now u mid prog r hr, fun v n hvn => markDone_other now u mid prog v n hvn⟩

/-- C8 witness: module 2 is last in the concrete catalog; completing it while
active marks it done and leaves the row of module 1 untouched. -/
theorem complete_module_terminal_witness :
    (complete_module cat01 7 0 2 progLastActive) 0 2
        = some { rowActive with status := Status.done, completed_at := some 7, updated_at := 7 }
    ∧ (complete_module cat01 7 0 2 progLastActive) 0 1 = progLastActive 0 1 := by
  have h := complete_module_terminal cat01 7 0 2 progLastActive rowActive 2 rfl rfl rfl
    (by decide)
  exact ⟨h.1, h.2 0 1 (by decide)⟩

/-- C9 counterexample: on a concrete catalog, the successor computation for
the unknown module id 99 returns the ordinary result ok none, exactly as for a
last module, and does not produce the NotFound failure the claim asserts. -/
theorem successor_unknown_cex :
    cat01.find? (fun x => decide (x.id = 99)) = none
    ∧ successor_lookupE cat01 99 = Except.ok none
    ∧ successor_lookupE cat01 99 ≠ Except.error CatalogError.notFound := by
  refine ⟨by decide, rfl, fun h => Except.noConfusion h⟩

/-- C9 (amended): the successor computation of complete_module on a module id
absent from the catalog raises nothing and returns ok none, indistinguishable
from a last catalog module; no NotFound condition is ever produced by the
source, whose only predecessor-range computations likewise return normal
values for unknown ids. -/
theorem successor_unknown_ok_none (cat : Catalog) (mid : ModuleId)
    (hunk : ∀ m2 ∈ cat, m2.id ≠ mid) :
    successor_lookupE cat mid = Except.ok none := by
  have hord : orderOf cat mid = none := orderOf_eq_none cat mid hunk
  unfold successor_lookupE
  simp only [successor_lookup, hord]

/-- C9 witness at another unknown module id. -/
theorem successor_unknown_ok_none_witness :
    successor_lookupE cat01 98 = Except.ok none :=
  successor_unknown_ok_none cat01 98 (by decide)

/-- C10: get_module_status on a module id absent from the catalog, for a user
with no stored row for it, returns active rather than failing or returning
locked: the order lookup is NULL, so both the done-predecessor count and the
total-predecessor count are 0 and the equality of counts holds vacuously. -/
theorem get_module_status_unknown_active (cat : Catalog) (prog : Progress) (u : UserId)
    (mid : ModuleId) (hunk : ∀ m2 ∈ cat, m2.id ≠ mid) (hrec : prog u mid = none) :
    get_module_status cat prog u mid = Status.active := by
  have hord : orderOf cat mid = none := orderOf_eq_none cat mid hunk
  unfold get_module_status
  rw [hrec, hord, prevDoneCount_none, prevTotalCount_none]
  simp

/-- C10 witness: module id 99 is not in the concrete catalog, yet the computed
status for a recordless user is active. -/
theorem get_module_status_unknown_active_witness :
    get_module_status cat01 emptyProgress 0 99 = Status.active :=
  get_module_status_unknown_active cat01 emptyProgress 0 99 (by decide) rfl

end GrowthMap
